import Mathlib

/-!
Verification development for a socket.io voice-room signaling server.

The repository holds two variants of the same server: `src/server.js`
(base variant) and `src/unnamed/part_000` (the final variant, which adds
the broadcast helper `broadcastRoomUpdate`, chat trimming and the chat
retention cap).  The room/slot/membership logic is embedded below as pure
Lean functions over an explicit `ServerState`.  Event handlers return the
new state together with the list of transport emissions they produce.

JavaScript `Map`s are embedded as association lists with at most one
entry per key (maintained by `alistSet`), the `micSlots` object as an
association list keyed by slot index, and JavaScript truthiness on
strings ("" is falsy) is made explicit where the source relies on it.
-/

set_option autoImplicit false

namespace Voice

/-- Occupant of a mic slot: `{ id: user.id, name: user.name }`. -/
structure MicOccupant where
  id : String
  name : String
  deriving DecidableEq

/-- One chat entry, as built by the send-chat handler of the final variant:
`{ fromId, fromName, text: text.trim(), at }`. -/
structure ChatMsg where
  fromId : String
  fromName : String
  text : String
  at_ : Nat
  deriving DecidableEq

/-- A room, per the shape documented in `server.js`:
`{ id, name, cover, ownerId, ownerName, ownerOnline, memberCount, members, micSlots, chat, createdAt }`. -/
structure Room where
  id : String
  name : String
  cover : Option String
  ownerId : Option String
  ownerName : Option String
  ownerOnline : Bool
  memberCount : Nat
  members : List String
  micSlots : List (Nat × MicOccupant)
  chat : List ChatMsg
  createdAt : Nat
  deriving DecidableEq

/-- The room object a client sends to the create-room handler of
`server.js`; every field the handler defaults may be absent. -/
structure ClientRoom where
  id : String
  name : String
  cover : Option String
  ownerId : Option String
  ownerName : Option String
  ownerOnline : Bool
  memberCount : Option Nat
  members : Option (List String)
  micSlots : Option (List (Nat × MicOccupant))
  chat : Option (List ChatMsg)
  createdAt : Option Nat
  deriving DecidableEq

/-- Global server state: the room list `rooms`, the two identity maps
`userIdToSocket` / `socketIdToUserId`, and the per-socket
`socket.data.userId` field (keyed by socket id). -/
structure ServerState where
  rooms : List Room
  userIdToSocket : List (String × String)
  socketIdToUserId : List (String × String)
  dataUserId : List (String × String)
  deriving DecidableEq

/-- `Map.get`: first entry with the given key. -/
def alistGet (m : List (String × String)) (k : String) : Option String :=
  (m.find? (fun p => p.1 == k)).map Prod.snd

/-- `Map.set`: overwrite any entry with the given key. -/
def alistSet (m : List (String × String)) (k v : String) : List (String × String) :=
  (k, v) :: m.filter (fun p => p.1 != k)

/-- `Map.delete`. -/
def alistDelete (m : List (String × String)) (k : String) : List (String × String) :=
  m.filter (fun p => p.1 != k)

/-- JavaScript `a || b` on possibly-absent strings: "" is falsy. -/
def jsOr (a b : Option String) : Option String :=
  match a with
  | some s => if s == "" then b else some s
  | none => b

/-- JavaScript truthiness of a possibly-absent string. -/
def jsTruthy (a : Option String) : Option String :=
  match a with
  | some s => if s == "" then none else some s
  | none => none

/-- `room.micSlots[slotIndex]` lookup. -/
def slotGet (s : List (Nat × MicOccupant)) (i : Nat) : Option MicOccupant :=
  (s.find? (fun p => p.1 == i)).map Prod.snd

/-- `room.micSlots[slotIndex] = occ` (the handler only assigns an empty
slot, so a plain overwrite-or-append suffices). -/
def slotSet (s : List (Nat × MicOccupant)) (i : Nat) (occ : MicOccupant) :
    List (Nat × MicOccupant) :=
  (i, occ) :: s.filter (fun p => p.1 != i)

/-- `findRoom(id)`: `rooms.find(r => r.id === id)`. -/
def findRoom (st : ServerState) (id : String) : Option Room :=
  st.rooms.find? (fun r => r.id == id)

/-- In-place mutation of the room returned by `findRoom`: replace the
first room with this id. -/
def updateRoom : List Room → Room → List Room
  | [], _ => []
  | r :: rs, r' => if r.id == r'.id then r' :: rs else r :: updateRoom rs r'

/-- JavaScript `l.slice(-n)`: the last `n` elements (all of them when the
list is shorter). -/
def takeRightN (l : List ChatMsg) (n : Nat) : List ChatMsg :=
  l.drop (l.length - n)

/-- Transport delivery target. -/
inductive Target where
  | toRoom (roomId : String)
  | toAll
  | toSocket (socketId : String)
  deriving DecidableEq

/-- Messages the handlers emit through the transport. -/
inductive Emit where
  | roomUpdated (tgt : Target) (snapshot : Room)
  | roomCreated (room : Room)
  | createFailed (socketId : String) (reason : String)
  | roomClients (socketId : String) (ids : List String)
  | userJoined (roomId : String) (userId : String)
  | joinAck (socketId : String) (ok : Bool)
  | claimFailed (socketId : String) (slotIndex : Nat)
  | chatMessage (roomId : String) (msg : ChatMsg)
  deriving DecidableEq

/-- `broadcastRoomUpdate(room)` from the final variant: emit a copy of
the room with only the last 100 chat entries, to the room and globally. -/
def cleanRoom (r : Room) : Room :=
  { r with chat := takeRightN r.chat 100 }

def broadcastRoomUpdate (r : Room) : List Emit :=
  [Emit.roomUpdated (Target.toRoom r.id) (cleanRoom r),
   Emit.roomUpdated Target.toAll (cleanRoom r)]

/-- The create-room handler of `server.js`: reject a falsy id or a
duplicate id, default the stateful fields, `rooms.unshift(room)`. -/
def createRoom (st : ServerState) (socketId : String) (c : ClientRoom) :
    ServerState × List Emit :=
  if c.id == "" then (st, [Emit.createFailed socketId "invalid_room"])
  else
    match findRoom st c.id with
    | some _ => (st, [Emit.createFailed socketId "id-exists"])
    | none =>
      let room : Room :=
        { id := c.id, name := c.name, cover := c.cover, ownerId := c.ownerId,
          ownerName := c.ownerName, ownerOnline := c.ownerOnline,
          memberCount := c.memberCount.getD 0,
          members := c.members.getD [],
          micSlots := c.micSlots.getD [],
          chat := c.chat.getD [],
          createdAt := c.createdAt.getD 0 }
      ({ st with rooms := room :: st.rooms }, [Emit.roomCreated room])

/-- The join-room handler of the final variant: bind the identity maps
(when `user.id` is truthy), add the member if absent, recompute
`memberCount`, send the member list minus the joiner, notify the room,
broadcast. -/
def joinRoom (st : ServerState) (socketId roomId : String) (user : MicOccupant) :
    ServerState × List Emit :=
  match findRoom st roomId with
  | none => (st, [Emit.joinAck socketId false])
  | some room =>
    let st :=
      if user.id == "" then st
      else
        { st with
          userIdToSocket := alistSet st.userIdToSocket user.id socketId,
          socketIdToUserId := alistSet st.socketIdToUserId socketId user.id,
          dataUserId := alistSet st.dataUserId socketId user.id }
    let room :=
      if room.members.contains user.id then room
      else { room with members := room.members ++ [user.id] }
    let room := { room with memberCount := room.members.length }
    ({ st with rooms := updateRoom st.rooms room },
     Emit.roomClients socketId (room.members.filter (fun id => id != user.id)) ::
     Emit.userJoined roomId user.id ::
     broadcastRoomUpdate room ++ [Emit.joinAck socketId true])

/-- The leave-room handler: drop the member, delete every mic slot held
by this user, recompute `memberCount`, broadcast. -/
def leaveRoom (st : ServerState) (roomId userId : String) :
    ServerState × List Emit :=
  match findRoom st roomId with
  | none => (st, [])
  | some room =>
    let room := { room with members := room.members.filter (fun id => id != userId) }
    let room := { room with micSlots := room.micSlots.filter (fun p => p.2.id != userId) }
    let room := { room with memberCount := room.members.length }
    ({ st with rooms := updateRoom st.rooms room }, broadcastRoomUpdate room)

/-- The claim-mic handler of the final variant: any occupied slot is
rejected with claim-failed; an empty slot is assigned and broadcast. -/
def claimMic (st : ServerState) (socketId roomId : String) (slotIndex : Nat)
    (user : MicOccupant) : ServerState × List Emit :=
  match findRoom st roomId with
  | none => (st, [])
  | some room =>
    match slotGet room.micSlots slotIndex with
    | some _ => (st, [Emit.claimFailed socketId slotIndex])
    | none =>
      let room :=
        { room with micSlots := slotSet room.micSlots slotIndex ⟨user.id, user.name⟩ }
      ({ st with rooms := updateRoom st.rooms room }, broadcastRoomUpdate room)

/-- The release-mic handler of the final variant: delete every slot held
by this user; broadcast only if something was deleted. -/
def releaseMic (st : ServerState) (roomId userId : String) :
    ServerState × List Emit :=
  match findRoom st roomId with
  | none => (st, [])
  | some room =>
    let changed := room.micSlots.any (fun p => p.2.id == userId)
    let room' := { room with micSlots := room.micSlots.filter (fun p => p.2.id != userId) }
    ({ st with rooms := updateRoom st.rooms room' },
     if changed then broadcastRoomUpdate room' else [])

/-- JavaScript `text.trim()`: strip leading and trailing whitespace,
written over the character list so that it evaluates inside the kernel. -/
def jsTrim (s : String) : String :=
  ⟨((s.data.dropWhile Char.isWhitespace).reverse.dropWhile Char.isWhitespace).reverse⟩

/-- The chat entry the send-chat handler builds from its input. -/
def mkChatMsg (e : MicOccupant × String × Nat) : ChatMsg :=
  { fromId := e.1.id, fromName := e.1.name, text := jsTrim e.2.1, at_ := e.2.2 }

/-- `room.chat.push(msg)` followed by the 500-entry retention cap of the
final variant: `if (room.chat.length > 500) room.chat = room.chat.slice(-500)`. -/
def pushCapped (chat : List ChatMsg) (m : ChatMsg) : List ChatMsg :=
  let c := chat ++ [m]
  if 500 < c.length then takeRightN c 500 else c

/-- The send-chat handler of the final variant: append the trimmed text
with the current timestamp, apply the cap, emit chat-message to the room. -/
def sendChat (st : ServerState) (roomId : String) (sender : MicOccupant)
    (text : String) (now : Nat) : ServerState × List Emit :=
  match findRoom st roomId with
  | none => (st, [])
  | some room =>
    let msg := mkChatMsg (sender, text, now)
    let room := { room with chat := pushCapped room.chat msg }
    ({ st with rooms := updateRoom st.rooms room }, [Emit.chatMessage roomId msg])

/-- The per-room body of the disconnect handler: drop the user from the
member list and from every slot it holds, and when anything changed
recompute `memberCount` and broadcast. -/
def disconnectRoomCleanup (uid : String) (room : Room) : Room × List Emit :=
  let changedM := room.members.contains uid
  let members' := room.members.filter (fun id => id != uid)
  let changedS := room.micSlots.any (fun p => p.2.id == uid)
  let micSlots' := room.micSlots.filter (fun p => p.2.id != uid)
  if changedM || changedS then
    let room' := { room with members := members', micSlots := micSlots',
                             memberCount := members'.length }
    (room', broadcastRoomUpdate room')
  else (room, [])

/-- The disconnect handler: resolve the user id as
`socket.data.userId || socketIdToUserId.get(socket.id)`; when truthy,
delete both map entries unconditionally and clean every room. -/
def disconnect (st : ServerState) (socketId : String) : ServerState × List Emit :=
  match jsTruthy (jsOr (alistGet st.dataUserId socketId)
                       (alistGet st.socketIdToUserId socketId)) with
  | none => (st, [])
  | some uid =>
    let st :=
      { st with
        userIdToSocket := alistDelete st.userIdToSocket uid,
        socketIdToUserId := alistDelete st.socketIdToUserId socketId }
    let pairs := st.rooms.map (disconnectRoomCleanup uid)
    ({ st with rooms := pairs.map Prod.fst }, pairs.flatMap Prod.snd)

/-- Folding the send-chat handler over a list of (sender, text, timestamp)
inputs, all addressed to the same room. -/
def sendChatSeq (st : ServerState) (roomId : String)
    (es : List (MicOccupant × String × Nat)) : ServerState :=
  es.foldl (fun s e => (sendChat s roomId e.1 e.2.1 e.2.2).1) st

/-! ### Basic lemmas about the embedded containers -/

theorem findRoom_id (st : ServerState) (rid : String) (room : Room)
    (h : findRoom st rid = some room) : room.id = rid := by
  simpa using List.find?_some h

theorem find?_updateRoom (rooms : List Room) (rid : String) (room room' : Room)
    (h : rooms.find? (fun r => r.id == rid) = some room) (hid : room'.id = room.id) :
    (updateRoom rooms room').find? (fun r => r.id == rid) = some room' := by
  induction rooms with
  | nil => simp at h
  | cons r rs ih =>
    rcases eq_or_ne r.id rid with hpr | hpr
    · rw [List.find?_cons_of_pos _ (by simpa using hpr)] at h
      have hr : room = r := by simpa using h.symm
      have hcond : (r.id == room'.id) = true := by simp [hid, hr]
      simp only [updateRoom, if_pos hcond]
      rw [List.find?_cons_of_pos _ (by simp [hid, hr, hpr])]
    · rw [List.find?_cons_of_neg _ (by simpa using hpr)] at h
      have hroom : room.id = rid := by simpa using List.find?_some h
      have hcond : ¬ (r.id == room'.id) = true := by simp [hid, hroom, hpr]
      simp only [updateRoom, if_neg hcond]
      rw [List.find?_cons_of_neg _ (by simpa using hpr)]
      exact ih h

theorem updateRoom_self (rooms : List Room) (rid : String) (room : Room)
    (h : rooms.find? (fun r => r.id == rid) = some room) :
    updateRoom rooms room = rooms := by
  induction rooms with
  | nil => simp at h
  | cons r rs ih =>
    rcases eq_or_ne r.id rid with hpr | hpr
    · rw [List.find?_cons_of_pos _ (by simpa using hpr)] at h
      have hr : room = r := by simpa using h.symm
      simp [updateRoom, hr]
    · rw [List.find?_cons_of_neg _ (by simpa using hpr)] at h
      have hroom : room.id = rid := by simpa using List.find?_some h
      have hcond : ¬ (r.id == room.id) = true := by simp [hroom, hpr]
      simp only [updateRoom, if_neg hcond, ih h]

theorem mem_updateRoom (rooms : List Room) (room' r : Room)
    (h : r ∈ updateRoom rooms room') : r ∈ rooms ∨ r = room' := by
  induction rooms with
  | nil => simp [updateRoom] at h
  | cons q qs ih =>
    by_cases hq : (q.id == room'.id) = true
    · simp only [updateRoom, if_pos hq] at h
      rcases List.mem_cons.mp h with h1 | h1
      · right; exact h1
      · left; exact List.mem_cons_of_mem _ h1
    · simp only [updateRoom, if_neg hq] at h
      rcases List.mem_cons.mp h with h1 | h1
      · left; exact h1 ▸ List.mem_cons_self _ _
      · rcases ih h1 with h2 | h2
        · left; exact List.mem_cons_of_mem _ h2
        · right; exact h2

theorem slotGet_slotSet (s : List (Nat × MicOccupant)) (i : Nat) (occ : MicOccupant) :
    slotGet (slotSet s i occ) i = some occ := by
  simp [slotGet, slotSet]

/-! ### Chat cap lemmas -/

theorem takeRightN_length_le (l : List ChatMsg) (n : Nat) : (takeRightN l n).length ≤ n := by
  unfold takeRightN
  rw [List.length_drop]
  omega

theorem takeRightN_of_le (l : List ChatMsg) (n : Nat) (h : l.length ≤ n) :
    takeRightN l n = l := by
  unfold takeRightN
  rw [Nat.sub_eq_zero_of_le h, List.drop_zero]

theorem takeRightN_length_eq (l : List ChatMsg) (n : Nat) (h : n ≤ l.length) :
    (takeRightN l n).length = n := by
  simp [takeRightN]; omega

theorem takeRightN_idem_append (l ms : List ChatMsg) (n : Nat) :
    takeRightN (takeRightN l n ++ ms) n = takeRightN (l ++ ms) n := by
  unfold takeRightN
  rw [← List.drop_append_of_le_length (Nat.sub_le l.length n)]
  have harith : (l.length - n) + (((l ++ ms).drop (l.length - n)).length - n)
      = (l ++ ms).length - n := by
    simp [List.length_drop, List.length_append]
    omega
  rw [List.drop_drop, harith]

theorem pushCapped_eq (chat : List ChatMsg) (m : ChatMsg) :
    pushCapped chat m = takeRightN (chat ++ [m]) 500 := by
  simp only [pushCapped]
  by_cases hc : 500 < (chat ++ [m]).length
  · simp only [if_pos hc]
  · simp only [if_neg hc]
    exact (takeRightN_of_le _ _ (Nat.le_of_not_lt hc)).symm

theorem pushCapped_of_lt (chat : List ChatMsg) (m : ChatMsg) (h : chat.length < 500) :
    pushCapped chat m = chat ++ [m] := by
  unfold pushCapped
  have hc : ¬ 500 < (chat ++ [m]).length := by simp; omega
  simp only [if_neg hc]

theorem foldl_pushCapped (es : List ChatMsg) (chat : List ChatMsg)
    (h : chat.length ≤ 500) :
    es.foldl pushCapped chat = takeRightN (chat ++ es) 500 := by
  induction es generalizing chat with
  | nil => simpa using (takeRightN_of_le _ _ h).symm
  | cons m ms ih =>
    rw [List.foldl_cons,
        ih _ (by rw [pushCapped_eq]; exact takeRightN_length_le _ _),
        pushCapped_eq, takeRightN_idem_append]
    simp

theorem findRoom_update (st : ServerState) (rid : String) (room room' : Room)
    (h : findRoom st rid = some room) (hid : room'.id = room.id) :
    findRoom { st with rooms := updateRoom st.rooms room' } rid = some room' :=
  find?_updateRoom st.rooms rid room room' h hid

theorem sendChat_found (st : ServerState) (rid : String) (room : Room)
    (sender : MicOccupant) (text : String) (now : Nat)
    (h : findRoom st rid = some room) :
    sendChat st rid sender text now =
      ({ st with rooms := updateRoom st.rooms { room with chat := pushCapped room.chat (mkChatMsg (sender, text, now)) } },
       [Emit.chatMessage rid (mkChatMsg (sender, text, now))]) := by
  unfold sendChat
  rw [h]

theorem sendChatSeq_found (es : List (MicOccupant × String × Nat)) (st : ServerState)
    (rid : String) (room : Room) (h : findRoom st rid = some room) :
    findRoom (sendChatSeq st rid es) rid =
      some { room with chat := (es.map mkChatMsg).foldl pushCapped room.chat } := by
  induction es generalizing st room with
  | nil => simpa using h
  | cons e es ih =>
    have hnext : findRoom (sendChat st rid e.1 e.2.1 e.2.2).1 rid
        = some { room with chat := pushCapped room.chat (mkChatMsg e) } := by
      rw [sendChat_found st rid room e.1 e.2.1 e.2.2 h]
      exact findRoom_update st rid room _ h rfl
    have hrest := ih _ _ hnext
    simpa [sendChatSeq, List.foldl_cons] using hrest


/-! ### Concrete example states -/

/-- A fresh default room, shaped like the "hall" the final variant creates
at start-up. -/
def hallRoom : Room :=
  { id := "hall", name := "Hall", cover := none, ownerId := none, ownerName := none,
    ownerOnline := false, memberCount := 0, members := [], micSlots := [], chat := [],
    createdAt := 0 }

/-- Server state holding only the fresh default room. -/
def stHall : ServerState := ⟨[hallRoom], [], [], []⟩

def alice : MicOccupant := ⟨"u1", "Alice"⟩

def bob : MicOccupant := ⟨"u2", "Bob"⟩

/-! ### Claim C4 and C8: the chat log -/

/-- C4: starting from a room whose chat log is within the 500-entry
retention cap, any sequence of send-chat operations leaves the log within
the cap, and the log is exactly the most recent 500 of the accumulated
entries, in append order (`takeRightN` is a plain suffix). -/
theorem chat_cap_invariant (st : ServerState) (rid : String) (room : Room)
    (es : List (MicOccupant × String × Nat))
    (hfind : findRoom st rid = some room) (hlen : room.chat.length ≤ 500) :
    ∃ room', findRoom (sendChatSeq st rid es) rid = some room' ∧
      room'.chat.length ≤ 500 ∧
      room'.chat = takeRightN (room.chat ++ es.map mkChatMsg) 500 ∧
      (500 < (room.chat ++ es.map mkChatMsg).length → room'.chat.length = 500) := by
  have hchat := foldl_pushCapped (es.map mkChatMsg) room.chat hlen
  refine ⟨{ room with chat := (es.map mkChatMsg).foldl pushCapped room.chat },
    sendChatSeq_found es st rid room hfind, ?_, ?_, ?_⟩
  · simp only [hchat]
    exact takeRightN_length_le _ _
  · simp only [hchat]
  · intro hlong
    simp only [hchat]
    exact takeRightN_length_eq _ _ (Nat.le_of_lt hlong)

theorem chat_cap_invariant_witness :
    ∃ room', findRoom (sendChatSeq stHall "hall" [(alice, " hi ", 1), (bob, "yo", 2)]) "hall" = some room' ∧
      room'.chat.length ≤ 500 ∧
      room'.chat = takeRightN (hallRoom.chat ++ [(alice, " hi ", 1), (bob, "yo", 2)].map mkChatMsg) 500 ∧
      (500 < (hallRoom.chat ++ [(alice, " hi ", 1), (bob, "yo", 2)].map mkChatMsg).length → room'.chat.length = 500) :=
  chat_cap_invariant stHall "hall" hallRoom [(alice, " hi ", 1), (bob, "yo", 2)] (by decide) (by decide)

/-- C8 (amended): send-chat stores the text trimmed of surrounding
whitespace, and appends the entry unconditionally: an empty-after-trim
text is not rejected, the entry is stored with empty text. -/
theorem sendChat_trims_appends (st : ServerState) (rid : String) (room : Room)
    (sender : MicOccupant) (text : String) (now : Nat)
    (hfind : findRoom st rid = some room) (hlen : room.chat.length < 500) :
    ∃ room', findRoom (sendChat st rid sender text now).1 rid = some room' ∧
      room'.chat = room.chat ++ [{ fromId := sender.id, fromName := sender.name, text := jsTrim text, at_ := now }] := by
  refine ⟨{ room with chat := pushCapped room.chat (mkChatMsg (sender, text, now)) }, ?_, ?_⟩
  · rw [sendChat_found st rid room sender text now hfind]
    exact findRoom_update st rid room _ hfind rfl
  · show pushCapped room.chat (mkChatMsg (sender, text, now)) = _
    rw [pushCapped_of_lt _ _ hlen]
    rfl

theorem sendChat_trims_appends_witness :
    ∃ room', findRoom (sendChat stHall "hall" alice "  hi " 7).1 "hall" = some room' ∧
      room'.chat = hallRoom.chat ++ [{ fromId := "u1", fromName := "Alice", text := jsTrim "  hi ", at_ := 7 }] :=
  sendChat_trims_appends stHall "hall" hallRoom alice "  hi " 7 (by decide) (by decide)

/-- C8 (counterexample to the claim as stated): sending the all-whitespace
text "   " to the fresh hall is not a no-op — a chat entry with empty
text is appended. -/
theorem sendChat_empty_text_appended :
    (findRoom (sendChat stHall "hall" alice "   " 5).1 "hall").map Room.chat =
      some [{ fromId := "u1", fromName := "Alice", text := "", at_ := 5 }] ∧
    jsTrim "   " = "" := by decide



/-! ### Mic slot handlers -/

theorem claimMic_occupied (st : ServerState) (s rid : String) (i : Nat) (u : MicOccupant)
    (room : Room) (occ : MicOccupant) (hfind : findRoom st rid = some room)
    (hocc : slotGet room.micSlots i = some occ) :
    claimMic st s rid i u = (st, [Emit.claimFailed s i]) := by
  unfold claimMic
  rw [hfind]
  dsimp only
  rw [hocc]

theorem claimMic_empty (st : ServerState) (s rid : String) (i : Nat) (u : MicOccupant)
    (room : Room) (hfind : findRoom st rid = some room)
    (hemp : slotGet room.micSlots i = none) :
    claimMic st s rid i u =
      ({ st with rooms := updateRoom st.rooms { room with micSlots := slotSet room.micSlots i ⟨u.id, u.name⟩ } },
       broadcastRoomUpdate { room with micSlots := slotSet room.micSlots i ⟨u.id, u.name⟩ }) := by
  unfold claimMic
  rw [hfind]
  dsimp only
  rw [hemp]

/-- The hall with alice as a member holding slot 0. -/
def hallWithSlot : Room :=
  { hallRoom with members := ["u1"], memberCount := 1, micSlots := [(0, alice)] }

def stSlot : ServerState :=
  ⟨[hallWithSlot], [("u1", "s1")], [("s1", "u1")], [("s1", "u1")]⟩

/-- C3 (counterexample to the claim as stated): slot 0 of the hall is held
by alice, yet alice re-claiming slot 0 is rejected with claim-failed and
the state is unchanged — the re-claim is not an allowed idempotent
success. -/
theorem reclaim_same_identity_fails :
    slotGet hallWithSlot.micSlots 0 = some alice ∧
    claimMic stSlot "s1" "hall" 0 alice = (stSlot, [Emit.claimFailed "s1" 0]) := by decide

/-- C3 (amended): claim-mic fails with the occupied error whenever the
slot already holds any occupant — a re-claim by the same identity is
rejected exactly like a claim by a different one — and the state is
unchanged on failure; only an empty slot is assigned, to the claiming
identity. -/
theorem claim_occupied_rejects_all (st : ServerState) (s rid : String) (i : Nat)
    (u : MicOccupant) (room : Room) (hfind : findRoom st rid = some room) :
    (∀ occ, slotGet room.micSlots i = some occ →
      claimMic st s rid i u = (st, [Emit.claimFailed s i])) ∧
    (slotGet room.micSlots i = none →
      ∃ room', findRoom (claimMic st s rid i u).1 rid = some room' ∧
        slotGet room'.micSlots i = some ⟨u.id, u.name⟩) := by
  constructor
  · intro occ hocc
    exact claimMic_occupied st s rid i u room occ hfind hocc
  · intro hemp
    refine ⟨{ room with micSlots := slotSet room.micSlots i ⟨u.id, u.name⟩ }, ?_, slotGet_slotSet _ _ _⟩
    rw [claimMic_empty st s rid i u room hfind hemp]
    exact findRoom_update st rid room _ hfind rfl

theorem claim_occupied_rejects_all_witness :
    (∀ occ, slotGet hallWithSlot.micSlots 0 = some occ →
      claimMic stSlot "s2" "hall" 0 bob = (stSlot, [Emit.claimFailed "s2" 0])) ∧
    (slotGet hallWithSlot.micSlots 0 = none →
      ∃ room', findRoom (claimMic stSlot "s2" "hall" 0 bob).1 "hall" = some room' ∧
        slotGet room'.micSlots 0 = some ⟨bob.id, bob.name⟩) :=
  claim_occupied_rejects_all stSlot "s2" "hall" 0 bob hallWithSlot (by decide)

/-- C5: claiming an empty slot for U1 and then claiming the same slot for
a different identity U2 fails: the second claim leaves the state exactly
as it was after the first claim, emits only the claim-failed message, and
the slot stays held by U1. -/
theorem second_claim_rejected (st : ServerState) (s1 s2 rid : String) (i : Nat)
    (u1 u2 : MicOccupant) (room : Room)
    (hfind : findRoom st rid = some room)
    (hemp : slotGet room.micSlots i = none) (hne : u1.id ≠ u2.id) :
    (claimMic (claimMic st s1 rid i u1).1 s2 rid i u2).1 = (claimMic st s1 rid i u1).1 ∧
    (claimMic (claimMic st s1 rid i u1).1 s2 rid i u2).2 = [Emit.claimFailed s2 i] ∧
    ∃ room', findRoom (claimMic st s1 rid i u1).1 rid = some room' ∧
      slotGet room'.micSlots i = some ⟨u1.id, u1.name⟩ := by
  have h1 := claimMic_empty st s1 rid i u1 room hfind hemp
  have hfind1 : findRoom (claimMic st s1 rid i u1).1 rid
      = some { room with micSlots := slotSet room.micSlots i ⟨u1.id, u1.name⟩ } := by
    rw [h1]
    exact findRoom_update st rid room _ hfind rfl
  have h2 := claimMic_occupied (claimMic st s1 rid i u1).1 s2 rid i u2 _ _ hfind1 (slotGet_slotSet _ _ _)
  exact ⟨by rw [h2], by rw [h2], _, hfind1, slotGet_slotSet _ _ _⟩

theorem second_claim_rejected_witness :
    (claimMic (claimMic stHall "s1" "hall" 0 alice).1 "s2" "hall" 0 bob).1 = (claimMic stHall "s1" "hall" 0 alice).1 ∧
    (claimMic (claimMic stHall "s1" "hall" 0 alice).1 "s2" "hall" 0 bob).2 = [Emit.claimFailed "s2" 0] ∧
    ∃ room', findRoom (claimMic stHall "s1" "hall" 0 alice).1 "hall" = some room' ∧
      slotGet room'.micSlots 0 = some ⟨alice.id, alice.name⟩ :=
  second_claim_rejected stHall "s1" "s2" "hall" 0 alice bob hallRoom (by decide) (by decide) (by decide)



/-! ### Leave and release handlers -/

theorem leaveRoom_found (st : ServerState) (rid uid : String) (room : Room)
    (hfind : findRoom st rid = some room) :
    leaveRoom st rid uid =
      ({ st with rooms := updateRoom st.rooms { room with members := room.members.filter (fun id => id != uid), micSlots := room.micSlots.filter (fun p => p.2.id != uid), memberCount := (room.members.filter (fun id => id != uid)).length } },
       broadcastRoomUpdate { room with members := room.members.filter (fun id => id != uid), micSlots := room.micSlots.filter (fun p => p.2.id != uid), memberCount := (room.members.filter (fun id => id != uid)).length }) := by
  unfold leaveRoom
  rw [hfind]

theorem releaseMic_found (st : ServerState) (rid uid : String) (room : Room)
    (hfind : findRoom st rid = some room) :
    releaseMic st rid uid =
      ({ st with rooms := updateRoom st.rooms { room with micSlots := room.micSlots.filter (fun p => p.2.id != uid) } },
       if room.micSlots.any (fun p => p.2.id == uid) then broadcastRoomUpdate { room with micSlots := room.micSlots.filter (fun p => p.2.id != uid) } else []) := by
  unfold releaseMic
  rw [hfind]

/-- C6: after leave-room on an existing room, the user is absent from the
member set and holds no mic slot (slot release cascades with membership
removal); when the room does not exist, the caller observes no change at
all. -/
theorem leave_cascades (st : ServerState) (rid uid : String) :
    (∀ room, findRoom st rid = some room →
      ∃ room', findRoom (leaveRoom st rid uid).1 rid = some room' ∧
        uid ∉ room'.members ∧ ∀ p ∈ room'.micSlots, p.2.id ≠ uid) ∧
    (findRoom st rid = none → leaveRoom st rid uid = (st, [])) := by
  constructor
  · intro room hfind
    refine ⟨{ room with members := room.members.filter (fun id => id != uid), micSlots := room.micSlots.filter (fun p => p.2.id != uid), memberCount := (room.members.filter (fun id => id != uid)).length }, ?_, ?_, ?_⟩
    · rw [leaveRoom_found st rid uid room hfind]
      exact findRoom_update st rid room _ hfind rfl
    · intro hmem
      have := (List.mem_filter.mp hmem).2
      simp at this
    · intro p hp
      have := (List.mem_filter.mp hp).2
      simpa using this
  · intro hnone
    unfold leaveRoom
    rw [hnone]

theorem leave_cascades_witness :
    (∀ room, findRoom stSlot "hall" = some room →
      ∃ room', findRoom (leaveRoom stSlot "hall" "u1").1 "hall" = some room' ∧
        "u1" ∉ room'.members ∧ ∀ p ∈ room'.micSlots, p.2.id ≠ "u1") ∧
    (findRoom stSlot "hall" = none → leaveRoom stSlot "hall" "u1" = (stSlot, [])) :=
  leave_cascades stSlot "hall" "u1"

/-- C7: release-mic releases every slot held by the identity in the room,
and is a no-op (state unchanged, nothing emitted) when the identity holds
none. -/
theorem release_all_slots (st : ServerState) (rid uid : String) (room : Room)
    (hfind : findRoom st rid = some room) :
    (∃ room', findRoom (releaseMic st rid uid).1 rid = some room' ∧
      ∀ p ∈ room'.micSlots, p.2.id ≠ uid) ∧
    ((∀ p ∈ room.micSlots, p.2.id ≠ uid) → releaseMic st rid uid = (st, [])) := by
  constructor
  · refine ⟨{ room with micSlots := room.micSlots.filter (fun p => p.2.id != uid) }, ?_, ?_⟩
    · rw [releaseMic_found st rid uid room hfind]
      exact findRoom_update st rid room _ hfind rfl
    · intro p hp
      have := (List.mem_filter.mp hp).2
      simpa using this
  · intro hnone
    have hany : room.micSlots.any (fun p => p.2.id == uid) = false := by
      rw [List.any_eq_false]
      intro p hp
      simpa using hnone p hp
    have hfilter : room.micSlots.filter (fun p => p.2.id != uid) = room.micSlots := by
      rw [List.filter_eq_self]
      intro p hp
      simpa using hnone p hp
    rw [releaseMic_found st rid uid room hfind, hany, hfilter]
    have hroom : ({ room with micSlots := room.micSlots } : Room) = room := rfl
    rw [hroom, updateRoom_self st.rooms rid room hfind]
    simp

theorem release_all_slots_witness :
    (∃ room', findRoom (releaseMic stSlot "hall" "u1").1 "hall" = some room' ∧
      ∀ p ∈ room'.micSlots, p.2.id ≠ "u1") ∧
    ((∀ p ∈ hallWithSlot.micSlots, p.2.id ≠ "u1") → releaseMic stSlot "hall" "u1" = (stSlot, [])) :=
  release_all_slots stSlot "hall" "u1" hallWithSlot (by decide)



/-! ### The memberCount invariant -/

/-- Per-room well-formedness: the member list has no duplicates (so its
length is the cardinality of the member set) and `memberCount` caches its
length. -/
def RoomOk (r : Room) : Prop :=
  r.members.Nodup ∧ r.memberCount = r.members.length

/-- Every room of the state is well-formed. -/
def StateOk (st : ServerState) : Prop :=
  ∀ r ∈ st.rooms, RoomOk r

instance (r : Room) : Decidable (RoomOk r) := by
  unfold RoomOk
  infer_instance

instance (st : ServerState) : Decidable (StateOk st) := by
  unfold StateOk
  infer_instance

theorem stateOk_update (st : ServerState) (room' : Room) (h : StateOk st)
    (h' : RoomOk room') : StateOk { st with rooms := updateRoom st.rooms room' } := by
  intro r hr
  rcases mem_updateRoom st.rooms room' r hr with h1 | h1
  · exact h r h1
  · exact h1 ▸ h'

theorem stateOk_join (st : ServerState) (s rid : String) (u : MicOccupant)
    (h : StateOk st) : StateOk (joinRoom st s rid u).1 := by
  unfold joinRoom
  cases hfind : findRoom st rid with
  | none => exact h
  | some room =>
    dsimp only
    have hok := h room (List.mem_of_find?_eq_some hfind)
    have hok2 : RoomOk { (if room.members.contains u.id then room else { room with members := room.members ++ [u.id] }) with memberCount := (if room.members.contains u.id then room else { room with members := room.members ++ [u.id] }).members.length } := by
      by_cases hc : room.members.contains u.id = true
      · simp only [if_pos hc]
        exact ⟨hok.1, rfl⟩
      · simp only [if_neg hc]
        refine ⟨?_, rfl⟩
        have hnotmem : u.id ∉ room.members := fun hm => hc (List.elem_iff.mpr hm)
        simp [List.nodup_append, hok.1, hnotmem]
    by_cases hu : (u.id == "") = true
    · simp only [if_pos hu]
      exact stateOk_update st _ h hok2
    · simp only [if_neg hu]
      exact stateOk_update _ _ (fun r hr => h r hr) hok2

theorem stateOk_leave (st : ServerState) (rid uid : String) (h : StateOk st) :
    StateOk (leaveRoom st rid uid).1 := by
  cases hfind : findRoom st rid with
  | none =>
    unfold leaveRoom
    rw [hfind]
    exact h
  | some room =>
    rw [congrArg Prod.fst (leaveRoom_found st rid uid room hfind)]
    exact stateOk_update st _ h
      ⟨((h room (List.mem_of_find?_eq_some hfind)).1).filter _, rfl⟩

theorem stateOk_claim (st : ServerState) (s rid : String) (i : Nat) (u : MicOccupant)
    (h : StateOk st) : StateOk (claimMic st s rid i u).1 := by
  cases hfind : findRoom st rid with
  | none =>
    unfold claimMic
    rw [hfind]
    exact h
  | some room =>
    cases hslot : slotGet room.micSlots i with
    | some occ =>
      rw [congrArg Prod.fst (claimMic_occupied st s rid i u room occ hfind hslot)]
      exact h
    | none =>
      rw [congrArg Prod.fst (claimMic_empty st s rid i u room hfind hslot)]
      have hok := h room (List.mem_of_find?_eq_some hfind)
      exact stateOk_update st _ h ⟨hok.1, hok.2⟩

theorem stateOk_release (st : ServerState) (rid uid : String) (h : StateOk st) :
    StateOk (releaseMic st rid uid).1 := by
  cases hfind : findRoom st rid with
  | none =>
    unfold releaseMic
    rw [hfind]
    exact h
  | some room =>
    rw [congrArg Prod.fst (releaseMic_found st rid uid room hfind)]
    have hok := h room (List.mem_of_find?_eq_some hfind)
    exact stateOk_update st _ h ⟨hok.1, hok.2⟩

theorem stateOk_sendChat (st : ServerState) (rid : String) (sender : MicOccupant)
    (text : String) (now : Nat) (h : StateOk st) : StateOk (sendChat st rid sender text now).1 := by
  cases hfind : findRoom st rid with
  | none =>
    unfold sendChat
    rw [hfind]
    exact h
  | some room =>
    rw [congrArg Prod.fst (sendChat_found st rid room sender text now hfind)]
    have hok := h room (List.mem_of_find?_eq_some hfind)
    exact stateOk_update st _ h ⟨hok.1, hok.2⟩

theorem roomOk_disconnectCleanup (uid : String) (room : Room) (h : RoomOk room) :
    RoomOk (disconnectRoomCleanup uid room).1 := by
  unfold disconnectRoomCleanup
  by_cases hc : (room.members.contains uid || room.micSlots.any (fun p => p.2.id == uid)) = true
  · simp only [if_pos hc]
    exact ⟨h.1.filter _, rfl⟩
  · simp only [if_neg hc]
    exact h

theorem stateOk_disconnect (st : ServerState) (s : String) (h : StateOk st) :
    StateOk (disconnect st s).1 := by
  unfold disconnect
  cases huid : jsTruthy (jsOr (alistGet st.dataUserId s) (alistGet st.socketIdToUserId s)) with
  | none => exact h
  | some uid =>
    dsimp only
    intro r hr
    rcases List.mem_map.mp hr with ⟨p, hp, hpr⟩
    rcases List.mem_map.mp hp with ⟨r0, hr0, hpr0⟩
    have := roomOk_disconnectCleanup uid r0 (h r0 hr0)
    rw [hpr0] at this
    exact hpr ▸ this

theorem stateOk_create (st : ServerState) (s : String) (c : ClientRoom) (h : StateOk st)
    (hcount : c.memberCount.getD 0 = (c.members.getD []).length)
    (hnodup : (c.members.getD []).Nodup) : StateOk (createRoom st s c).1 := by
  unfold createRoom
  by_cases hid : (c.id == "") = true
  · simp only [if_pos hid]
    exact h
  · simp only [if_neg hid]
    cases hfind : findRoom st c.id with
    | some r => exact h
    | none =>
      dsimp only
      intro r hr
      rcases List.mem_cons.mp hr with h1 | h1
      · subst h1
        exact ⟨hnodup, hcount⟩
      · exact h r h1



/-- A create-room payload that claims five members but carries none. -/
def badClientRoom : ClientRoom :=
  { id := "r1", name := "R1", cover := none, ownerId := none, ownerName := none,
    ownerOnline := false, memberCount := some 5, members := none, micSlots := none,
    chat := none, createdAt := none }

/-- C9 (counterexample to the claim as stated): create-room keeps the
client-supplied `memberCount`, so a payload claiming five members with an
empty member list creates a room whose `memberCount` is 5 while its
member set is empty. -/
theorem create_room_count_mismatch :
    (findRoom (createRoom stHall "s1" badClientRoom).1 "r1").map
        (fun r => (r.memberCount, r.members)) = some (5, []) := by decide

/-- C9 (amended): from any state whose rooms all satisfy the invariant
(`memberCount` = cardinality of the duplicate-free member list), every
handler — join, leave, claim-mic, release-mic, send-chat, disconnect —
preserves it; create-room preserves it only when the client payload is
itself consistent (its defaulted `memberCount` equals the length of its
defaulted, duplicate-free member list). -/
theorem memberCount_matches_members (st : ServerState) (h : StateOk st) :
    (∀ s rid u, StateOk (joinRoom st s rid u).1) ∧
    (∀ rid uid, StateOk (leaveRoom st rid uid).1) ∧
    (∀ s rid i u, StateOk (claimMic st s rid i u).1) ∧
    (∀ rid uid, StateOk (releaseMic st rid uid).1) ∧
    (∀ rid sender text now, StateOk (sendChat st rid sender text now).1) ∧
    (∀ s, StateOk (disconnect st s).1) ∧
    (∀ s c, c.memberCount.getD 0 = (c.members.getD []).length →
      (c.members.getD []).Nodup → StateOk (createRoom st s c).1) :=
  ⟨fun s rid u => stateOk_join st s rid u h,
   fun rid uid => stateOk_leave st rid uid h,
   fun s rid i u => stateOk_claim st s rid i u h,
   fun rid uid => stateOk_release st rid uid h,
   fun rid sender text now => stateOk_sendChat st rid sender text now h,
   fun s => stateOk_disconnect st s h,
   fun s c hc hn => stateOk_create st s c h hc hn⟩

theorem memberCount_matches_members_witness :
    (∀ s rid u, StateOk (joinRoom stSlot s rid u).1) ∧
    (∀ rid uid, StateOk (leaveRoom stSlot rid uid).1) ∧
    (∀ s rid i u, StateOk (claimMic stSlot s rid i u).1) ∧
    (∀ rid uid, StateOk (releaseMic stSlot rid uid).1) ∧
    (∀ rid sender text now, StateOk (sendChat stSlot rid sender text now).1) ∧
    (∀ s, StateOk (disconnect stSlot s).1) ∧
    (∀ s c, c.memberCount.getD 0 = (c.members.getD []).length →
      (c.members.getD []).Nodup → StateOk (createRoom stSlot s c).1) :=
  memberCount_matches_members stSlot (by decide)

/-! ### The stale-disconnect scenario -/

/-- Alice joins the hall on session s1, rejoins on session s2, and claims
slot 0 from s2. -/
def stTwoJoins : ServerState :=
  (claimMic ((joinRoom ((joinRoom stHall "s1" "hall" alice).1) "s2" "hall" alice).1)
    "s2" "hall" 0 alice).1

/-- C1 (code behavior at the failing input): after alice joins on s1 and
rejoins on s2 (holding slot 0), the directory resolves alice to s2 — yet
disconnecting the stale session s1 evicts alice from the hall's member
set and frees her slot. -/
theorem stale_disconnect_evicts :
    alistGet stTwoJoins.userIdToSocket "u1" = some "s2" ∧
    (findRoom stTwoJoins "hall").map (fun r => (r.members, r.micSlots)) =
      some (["u1"], [(0, alice)]) ∧
    (findRoom (disconnect stTwoJoins "s1").1 "hall").map (fun r => (r.members, r.micSlots)) =
      some ([], []) := by decide

/-- C2 (code behavior at the failing input): the disconnect of the stale
session s1 deletes the identity-to-session entry for alice
unconditionally, although it points to the newer session s2; afterwards
resolving alice yields nothing instead of s2. -/
theorem stale_disconnect_clobbers_binding :
    alistGet stTwoJoins.userIdToSocket "u1" = some "s2" ∧
    alistGet stTwoJoins.socketIdToUserId "s1" = some "u1" ∧
    (disconnect stTwoJoins "s1").1.userIdToSocket = [] ∧
    alistGet (disconnect stTwoJoins "s1").1.userIdToSocket "u1" = none := by decide



/-! ### Broadcast pairing -/

/-- Pairing property of an emission list: a room snapshot delivered to the
sockets of that room is also delivered globally to every connected
socket, and conversely. -/
def broadcastsPaired (emits : List Emit) : Prop :=
  ∀ snap : Room,
    (Emit.roomUpdated (Target.toRoom snap.id) snap ∈ emits ↔
     Emit.roomUpdated Target.toAll snap ∈ emits)

theorem broadcastsPaired_nil : broadcastsPaired [] := by
  intro snap
  simp

theorem broadcastsPaired_broadcast (r : Room) :
    broadcastsPaired (broadcastRoomUpdate r) := by
  intro snap
  simp only [broadcastRoomUpdate, List.mem_cons, List.not_mem_nil, or_false]
  constructor
  · rintro (h | h)
    · right
      rw [(Emit.roomUpdated.injEq _ _ _ _).mp h |>.2]
    · exact absurd ((Emit.roomUpdated.injEq _ _ _ _).mp h).1 (by simp)
  · rintro (h | h)
    · exact absurd ((Emit.roomUpdated.injEq _ _ _ _).mp h).1 (by simp)
    · left
      have hsnap := ((Emit.roomUpdated.injEq _ _ _ _).mp h).2
      rw [hsnap]
      rfl

theorem broadcastsPaired_cons (e : Emit) (l : List Emit)
    (he : ∀ tgt snap, e ≠ Emit.roomUpdated tgt snap) (h : broadcastsPaired l) :
    broadcastsPaired (e :: l) := by
  intro snap
  simp only [List.mem_cons]
  constructor
  · rintro (h1 | h1)
    · exact absurd h1.symm (he _ _)
    · exact Or.inr ((h snap).mp h1)
  · rintro (h1 | h1)
    · exact absurd h1.symm (he _ _)
    · exact Or.inr ((h snap).mpr h1)

theorem broadcastsPaired_append (l1 l2 : List Emit)
    (h1 : broadcastsPaired l1) (h2 : broadcastsPaired l2) :
    broadcastsPaired (l1 ++ l2) := by
  intro snap
  simp only [List.mem_append]
  exact or_congr (h1 snap) (h2 snap)

theorem mem_broadcastRoomUpdate_pair (r : Room) (rid : String) (hid : r.id = rid) :
    Emit.roomUpdated (Target.toRoom rid) (cleanRoom r) ∈ broadcastRoomUpdate r ∧
    Emit.roomUpdated Target.toAll (cleanRoom r) ∈ broadcastRoomUpdate r := by
  subst hid
  exact ⟨List.mem_cons_self _ _, List.mem_cons_of_mem _ (List.mem_cons_self _ _)⟩

theorem broadcastsPaired_cleanup (uid : String) (room : Room) :
    broadcastsPaired (disconnectRoomCleanup uid room).2 := by
  unfold disconnectRoomCleanup
  by_cases hc : (room.members.contains uid || room.micSlots.any (fun p => p.2.id == uid)) = true
  · simp only [if_pos hc]
    exact broadcastsPaired_broadcast _
  · simp only [if_neg hc]
    exact broadcastsPaired_nil

/-- C10: for every mutating handler — join, leave, claim-mic,
release-mic, disconnect — each room snapshot emitted to the sockets of
the affected room is also emitted globally to every connected socket and
conversely; and a join to an existing room does emit such a pair, so a
client that never joined the room still receives its snapshot. -/
theorem room_updates_broadcast_globally (st : ServerState) :
    (∀ s rid u, broadcastsPaired (joinRoom st s rid u).2) ∧
    (∀ rid uid, broadcastsPaired (leaveRoom st rid uid).2) ∧
    (∀ s rid i u, broadcastsPaired (claimMic st s rid i u).2) ∧
    (∀ rid uid, broadcastsPaired (releaseMic st rid uid).2) ∧
    (∀ s, broadcastsPaired (disconnect st s).2) ∧
    (∀ s rid u room, findRoom st rid = some room →
      ∃ snap, Emit.roomUpdated (Target.toRoom rid) snap ∈ (joinRoom st s rid u).2 ∧
        Emit.roomUpdated Target.toAll snap ∈ (joinRoom st s rid u).2) := by
  refine ⟨?_, ?_, ?_, ?_, ?_, ?_⟩
  · intro s rid u
    unfold joinRoom
    cases hfind : findRoom st rid with
    | none => exact broadcastsPaired_cons _ _ (by intro tgt snap; simp) broadcastsPaired_nil
    | some room =>
      dsimp only
      refine broadcastsPaired_cons _ _ (by intro tgt snap; simp) ?_
      refine broadcastsPaired_cons _ _ (by intro tgt snap; simp) ?_
      refine broadcastsPaired_append _ _ (broadcastsPaired_broadcast _) ?_
      exact broadcastsPaired_cons _ _ (by intro tgt snap; simp) broadcastsPaired_nil
  · intro rid uid
    cases hfind : findRoom st rid with
    | none =>
      unfold leaveRoom
      rw [hfind]
      exact broadcastsPaired_nil
    | some room =>
      rw [congrArg Prod.snd (leaveRoom_found st rid uid room hfind)]
      exact broadcastsPaired_broadcast _
  · intro s rid i u
    cases hfind : findRoom st rid with
    | none =>
      unfold claimMic
      rw [hfind]
      exact broadcastsPaired_nil
    | some room =>
      cases hslot : slotGet room.micSlots i with
      | some occ =>
        rw [congrArg Prod.snd (claimMic_occupied st s rid i u room occ hfind hslot)]
        exact broadcastsPaired_cons _ _ (by intro tgt snap; simp) broadcastsPaired_nil
      | none =>
        rw [congrArg Prod.snd (claimMic_empty st s rid i u room hfind hslot)]
        exact broadcastsPaired_broadcast _
  · intro rid uid
    cases hfind : findRoom st rid with
    | none =>
      unfold releaseMic
      rw [hfind]
      exact broadcastsPaired_nil
    | some room =>
      rw [congrArg Prod.snd (releaseMic_found st rid uid room hfind)]
      by_cases hany : room.micSlots.any (fun p => p.2.id == uid) = true
      · simp only [if_pos hany]
        exact broadcastsPaired_broadcast _
      · simp only [if_neg hany]
        exact broadcastsPaired_nil
  · intro s
    unfold disconnect
    cases huid : jsTruthy (jsOr (alistGet st.dataUserId s) (alistGet st.socketIdToUserId s)) with
    | none => exact broadcastsPaired_nil
    | some uid =>
      dsimp only
      intro snap
      simp only [List.mem_flatMap]
      constructor
      · rintro ⟨l, hl, hin⟩
        rcases List.mem_map.mp hl with ⟨r0, hr0, hlr0⟩
        refine ⟨l, hl, ?_⟩
        have := broadcastsPaired_cleanup uid r0
        rw [hlr0] at this
        exact (this snap).mp hin
      · rintro ⟨l, hl, hin⟩
        rcases List.mem_map.mp hl with ⟨r0, hr0, hlr0⟩
        refine ⟨l, hl, ?_⟩
        have := broadcastsPaired_cleanup uid r0
        rw [hlr0] at this
        exact (this snap).mpr hin
  · intro s rid u room hfind
    have hid : room.id = rid := findRoom_id st rid room hfind
    unfold joinRoom
    rw [hfind]
    dsimp only
    have htgt : ({ (if room.members.contains u.id then room else { room with members := room.members ++ [u.id] }) with memberCount := (if room.members.contains u.id then room else { room with members := room.members ++ [u.id] }).members.length } : Room).id = rid := by
      by_cases hc : room.members.contains u.id = true
      · simp only [if_pos hc]
        exact hid
      · simp only [if_neg hc]
        exact hid
    have hpair := mem_broadcastRoomUpdate_pair _ rid htgt
    refine ⟨cleanRoom ({ (if room.members.contains u.id then room else { room with members := room.members ++ [u.id] }) with memberCount := (if room.members.contains u.id then room else { room with members := room.members ++ [u.id] }).members.length } : Room), ?_, ?_⟩
    · exact List.mem_append_left _ (List.mem_cons_of_mem _ (List.mem_cons_of_mem _ hpair.1))
    · exact List.mem_append_left _ (List.mem_cons_of_mem _ (List.mem_cons_of_mem _ hpair.2))

theorem room_updates_broadcast_globally_witness :
    (∀ s rid u, broadcastsPaired (joinRoom stHall s rid u).2) ∧
    (∀ rid uid, broadcastsPaired (leaveRoom stHall rid uid).2) ∧
    (∀ s rid i u, broadcastsPaired (claimMic stHall s rid i u).2) ∧
    (∀ rid uid, broadcastsPaired (releaseMic stHall rid uid).2) ∧
    (∀ s, broadcastsPaired (disconnect stHall s).2) ∧
    (∀ s rid u room, findRoom stHall rid = some room →
      ∃ snap, Emit.roomUpdated (Target.toRoom rid) snap ∈ (joinRoom stHall s rid u).2 ∧
        Emit.roomUpdated Target.toAll snap ∈ (joinRoom stHall s rid u).2) :=
  room_updates_broadcast_globally stHall


end Voice


